import Mathlib

/-!
Verification of the llmstxt_architect pipeline (Temporal backend).

This file embeds, as executable Lean definitions, the parts of the
repository that the checked claims are about:

* `src/llmstxt_architect/temporal/activities.py`
  (`load_batch`, `summarize_document`, `save_checkpoint`,
  `generate_output_file`);
* `src/llmstxt_architect/temporal/workflows.py`
  (`BatchProcessWorkflow.run`, `CrawlAndSummarizeWorkflow.run`);
* `src/llmstxt_architect/extractor.py` (`bs4_extractor`, `default_extractor`).

External collaborators (the HTML parser, the language model, the JSON
stdlib, `markdownify`) enter the model only through their results, which
are supplied as explicit inputs to the embedded functions.
-/

namespace LlmsTxt

open scoped List

/-! ### Python string primitives used by the source -/

/-- Python whitespace characters recognised by `str.strip()` and by the
`\s` regex class (ASCII part; the source only ever meets ASCII here). -/
def isPySpace (c : Char) : Bool :=
  c == ' ' || c == '\t' || c == '\n' || c == '\r' || c == '\x0b' || c == '\x0c'

/-- Python `s.rstrip("/")`: remove every trailing `'/'`. -/
def rstripSlash (s : String) : String :=
  String.mk (((s.data.reverse).dropWhile (fun c => c == '/')).reverse)

/-- Python `s.strip()`: remove leading and trailing whitespace. -/
def pyStrip (s : String) : String :=
  String.mk ((((s.data.dropWhile isPySpace).reverse).dropWhile isPySpace).reverse)

/-- Python `s.replace("\n\n", " ")`: left-to-right, non-overlapping. -/
def replaceDoubleNewline : List Char → List Char
  | '\n' :: '\n' :: rest => ' ' :: replaceDoubleNewline rest
  | c :: rest => c :: replaceDoubleNewline rest
  | [] => []

/-- Python `s.replace("\n", " ")` (single-character pattern). -/
def replaceNewline (cs : List Char) : List Char :=
  cs.map (fun c => if c == '\n' then ' ' else c)

/-- `summary_text.replace("\n\n", " ").replace("\n", " ").strip()`, the
whitespace normalisation applied to model responses in
`summarize_document`. -/
def pyCleanSummary (s : String) : String :=
  pyStrip (String.mk (replaceNewline (replaceDoubleNewline s.data)))

/-! ### Batch scheduling

`CrawlAndSummarizeWorkflow.run` iterates
`for batch_start in range(0, total_docs, BATCH_SIZE)` with
`batch_end = min(batch_start + BATCH_SIZE, total_docs)`, and `load_batch`
returns the slice `manifest[batch_start:batch_end]`. -/

/-- `BATCH_SIZE` constant from `workflows.py`. -/
def BATCH_SIZE : Nat := 10

/-- Python `range(0, n, b)` for `b > 0`: the starts `0, b, 2b, …` below
`n`; there are exactly `⌈n/b⌉` of them. -/
def batchStarts (n b : Nat) : List Nat :=
  (List.range ((n + b - 1) / b)).map (fun i => i * b)

/-- The `(batch_start, batch_end)` pairs produced by the workflow loop. -/
def batchBounds (n b : Nat) : List (Nat × Nat) :=
  (batchStarts n b).map (fun s => (s, min (s + b) n))

/-- Python slice `l[s:e]` for `0 ≤ s ≤ e`. -/
def pySlice (l : List α) (s e : Nat) : List α :=
  (l.drop s).take (e - s)

/-- The sequence of batches the orchestrator feeds to child workflows:
one `load_batch` slice per loop iteration, in loop order. -/
def scheduleBatches (manifest : List α) (b : Nat) : List (List α) :=
  (batchBounds manifest.length b).map (fun p => pySlice manifest p.1 p.2)

theorem batchStarts_zero (b : Nat) : batchStarts 0 b = [] := by
  have h : (b - 1) / b = 0 := by
    rcases Nat.eq_zero_or_pos b with hb | hb
    · subst hb; rfl
    · exact Nat.div_eq_of_lt (by omega)
  simp [batchStarts, h]

theorem ceil_succ (n b : Nat) (hb : 0 < b) (hn : 0 < n) :
    (n + b - 1) / b = (n - b + b - 1) / b + 1 := by
  rcases Nat.le_total n b with h | h
  · have h1 : n - b = 0 := Nat.sub_eq_zero_of_le h
    rw [h1]
    have h2 : (n + b - 1) / b = 1 := by
      apply Nat.div_eq_of_lt_le <;> omega
    have h3 : (0 + b - 1) / b = 0 := by
      apply Nat.div_eq_of_lt; omega
    omega
  · have h1 : n + b - 1 = (n - b + b - 1) + b := by omega
    rw [h1, Nat.add_div_right _ hb]

theorem batchStarts_succ (n b : Nat) (hb : 0 < b) (hn : 0 < n) :
    batchStarts n b = 0 :: (batchStarts (n - b) b).map (fun s => s + b) := by
  unfold batchStarts
  rw [ceil_succ n b hb hn, List.range_succ_eq_map]
  simp only [List.map_cons, List.map_map, Nat.zero_mul]
  congr 1
  apply List.map_congr_left
  intro i _
  simp [Nat.succ_mul]

theorem scheduleBatches_nil (b : Nat) : scheduleBatches ([] : List α) b = [] := by
  simp [scheduleBatches, batchBounds, batchStarts_zero]

theorem scheduleBatches_cons (m : List α) (b : Nat) (hb : 0 < b) (hm : m ≠ []) :
    scheduleBatches m b = m.take b :: scheduleBatches (m.drop b) b := by
  have hn : 0 < m.length := List.length_pos.mpr hm
  unfold scheduleBatches batchBounds
  rw [batchStarts_succ m.length b hb hn]
  simp only [List.map_cons, List.map_map, List.length_drop]
  congr 1
  · simp only [pySlice, Nat.zero_add, List.drop_zero, Nat.sub_zero]
    rw [← List.take_take, List.take_length]
  · apply List.map_congr_left
    intro s _
    simp only [Function.comp_apply, pySlice, List.drop_drop]
    congr 1
    · omega
    · rw [Nat.add_comm]

theorem scheduleBatches_flatten (b : Nat) (hb : 0 < b) :
    ∀ (m : List α), (scheduleBatches m b).flatten = m := by
  suffices h : ∀ (n : Nat) (m : List α), m.length = n → (scheduleBatches m b).flatten = m by
    exact fun m => h m.length m rfl
  intro n
  induction n using Nat.strong_induction_on with
  | _ n ih =>
    intro m hlen
    cases m with
    | nil => simp [scheduleBatches_nil]
    | cons a t =>
      rw [scheduleBatches_cons (a :: t) b hb (by simp), List.flatten_cons]
      have hdrop : ((a :: t).drop b).length < n := by
        subst hlen
        simp only [List.length_drop, List.length_cons]
        omega
      rw [ih _ hdrop _ rfl, List.take_append_drop]

theorem scheduleBatches_count (m : List α) (b : Nat) :
    (scheduleBatches m b).length = (m.length + b - 1) / b := by
  simp [scheduleBatches, batchBounds, batchStarts]

theorem scheduleBatches_size (m : List α) (b : Nat) :
    ∀ batch ∈ scheduleBatches m b, batch.length ≤ b := by
  intro batch hmem
  simp only [scheduleBatches, batchBounds, batchStarts, List.mem_map, List.map_map,
    List.mem_range] at hmem
  obtain ⟨i, _, rfl⟩ := hmem
  simp only [Function.comp_apply, pySlice, List.length_take, List.length_drop]
  omega

/-- C6: the orchestrator's batching produces exactly `⌈N/B⌉` batches,
each a contiguous slice of the manifest of size at most `B`, and their
in-order concatenation is exactly the manifest (no gaps, no overlaps,
processed in manifest order). -/
theorem batching_covers_manifest {α : Type} (manifest : List α) (b : Nat) (hb : 0 < b) :
    (scheduleBatches manifest b).length = (manifest.length + b - 1) / b
    ∧ (∀ batch ∈ scheduleBatches manifest b, batch.length ≤ b)
    ∧ (scheduleBatches manifest b).flatten = manifest :=
  ⟨scheduleBatches_count manifest b, scheduleBatches_size manifest b,
    scheduleBatches_flatten b hb manifest⟩

/-- C6 witness: a manifest of 25 documents with batch size 10 yields
3 batches of sizes 10, 10, 5 covering the manifest in order. -/
theorem batching_covers_manifest_witness :
    (0 < 10)
    ∧ ((scheduleBatches (List.range 25) 10).length = (25 + 10 - 1) / 10
      ∧ (∀ batch ∈ scheduleBatches (List.range 25) 10, batch.length ≤ 10)
      ∧ (scheduleBatches (List.range 25) 10).flatten = List.range 25) :=
  ⟨by decide, by
    have h := batching_covers_manifest (List.range 25) 10 (by decide)
    simpa using h⟩

/-- Python `s.endswith(suf)` (over the underlying characters; the
kernel-opaque `String.endsWith` loop is avoided). -/
def strEndsWith (s suf : String) : Bool :=
  (s.data.reverse.take suf.data.length) == suf.data.reverse

/-! ### The URL pattern

`generate_output_file` uses
`url_pattern = re.compile(r"\[(.*?)\]\((https?://[^\s)]+)\)")` and always
consumes `url_pattern.search(text).group(2)`.  The model below implements
Python `re.search` semantics for exactly this pattern: leftmost starting
position wins, the lazy group `(.*?)` (which cannot cross a newline)
takes the shortest extent, and the greedy class `[^\s)]+` takes the
longest run (no backtracking is possible since `)` is excluded from the
class). -/

/-- A character matched by `[^\s)]`. -/
def urlClassChar (c : Char) : Bool :=
  !(isPySpace c) && c != ')'

/-- Literal `https?://` ( `s?` greedy, as in the pattern). -/
def matchSchemeAt : List Char → Option (List Char × List Char)
  | 'h' :: 't' :: 't' :: 'p' :: 's' :: ':' :: '/' :: '/' :: rest =>
      some (['h', 't', 't', 'p', 's', ':', '/', '/'], rest)
  | 'h' :: 't' :: 't' :: 'p' :: ':' :: '/' :: '/' :: rest =>
      some (['h', 't', 't', 'p', ':', '/', '/'], rest)
  | _ => none

/-- After the literal `](`, match `https?://[^\s)]+\)` and return the
capture-group-2 characters. -/
def matchUrlTail (cs : List Char) : Option (List Char) :=
  match matchSchemeAt cs with
  | none => none
  | some (scheme, rest) =>
    let run := rest.takeWhile urlClassChar
    if run.isEmpty then none
    else
      match rest.dropWhile urlClassChar with
      | ')' :: _ => some (scheme ++ run)
      | _ => none

/-- Expansion of the lazy `(.*?)` after an opening `[`: the shortest
extent (not crossing a newline) followed by `](https?://[^\s)]+)` wins. -/
def searchAfterBracket : List Char → Option (List Char)
  | [] => none
  | ']' :: '(' :: rest2 =>
      match matchUrlTail rest2 with
      | some url => some url
      | none => searchAfterBracket ('(' :: rest2)
  | c :: rest => if c == '\n' then none else searchAfterBracket rest

/-- Leftmost-match scan: try each position; a match must start at `[`. -/
def urlSearchChars : List Char → Option (List Char)
  | [] => none
  | '[' :: rest =>
      match searchAfterBracket rest with
      | some url => some url
      | none => urlSearchChars rest
  | _ :: rest => urlSearchChars rest

/-- `url_pattern.search(s)` returning `match.group(2)` (`none` when the
pattern does not occur). -/
def urlPatternSearch (s : String) : Option String :=
  (urlSearchChars s.data).map String.mk

/-! ### Python dict model (insertion-ordered, as in CPython 3.7+) -/

/-- `m[k] = v`: an existing key keeps its position, a new key goes last. -/
def dictSet (m : List (String × α)) (k : String) (v : α) : List (String × α) :=
  if m.any (fun p => p.1 == k)
  then m.map (fun p => if p.1 == k then (p.1, v) else p)
  else m ++ [(k, v)]

/-- `m.setdefault(k, []).append(v)`. -/
def dictPush (m : List (String × List α)) (k : String) (v : α) : List (String × List α) :=
  if m.any (fun p => p.1 == k)
  then m.map (fun p => if p.1 == k then (p.1, p.2 ++ [v]) else p)
  else m ++ [(k, [v])]

/-! ### `generate_output_file`, txt fresh (sorted) mode

The activity lists `output_dir`, keeps `*.txt` files other than the
output file's own basename, extracts each file's URL with the pattern
(falling back to the filename), drops blacklisted URLs, groups contents
per normalized URL, keeps the head of a stable length-descending sort,
drops entries whose full text already occurred, sorts by URL and
concatenates. -/

/-- A file of `output_dir`: `(filename, file text)` in listing order. -/
abbrev DiskFile := String × String

/-- The `summary_entries` loop (lines 474–484 of `activities.py`). -/
def collectTxtEntries (outputBase : String) (blacklist : List String)
    (disk : List DiskFile) : List (String × String) :=
  disk.filterMap (fun fc =>
    if strEndsWith fc.1 ".txt" && fc.1 != outputBase then
      let url := (urlPatternSearch fc.2).getD fc.1
      let normalized := rstripSlash url
      if normalized ∈ blacklist then none else some (normalized, fc.2)
    else none)

/-- The `url_to_entries` dict: contents grouped per URL, insertion order. -/
def buildUrlToEntries (entries : List (String × String)) : List (String × List String) :=
  entries.foldl (fun m uc => dictPush m uc.1 uc.2) []

/-- `contents.sort(key=len, reverse=True)`: Python's stable sort with the
length comparison reversed (modelled by the stable insertion sort). -/
def sortByLenDesc (cs : List String) : List String :=
  cs.insertionSort (fun a b => b.length ≤ a.length)

/-- `unique_entries` loop: per URL keep `contents[0]` of the sorted list
(the group is never empty, so the `""` default is never used). -/
def dedupLongest (entries : List (String × String)) : List (String × String) :=
  (buildUrlToEntries entries).map (fun ul => (ul.1, (sortByLenDesc ul.2).headD ""))

/-- `final_entries` loop: drop an entry whose full text was seen before. -/
def dedupByContentAux (seen : List String) : List (String × String) → List (String × String)
  | [] => []
  | uc :: rest =>
    if uc.2 ∈ seen then dedupByContentAux seen rest
    else uc :: dedupByContentAux (uc.2 :: seen) rest

def dedupByContent (entries : List (String × String)) : List (String × String) :=
  dedupByContentAux [] entries

/-- `sorted(final_entries, key=lambda x: x[0])`: stable sort by URL. -/
def sortEntriesByUrl (entries : List (String × String)) : List (String × String) :=
  entries.insertionSort (fun a b => a.1 ≤ b.1)

/-- The entry list written to the output file in fresh txt mode. -/
def freshTxtEntries (outputBase : String) (blacklist : List String)
    (disk : List DiskFile) : List (String × String) :=
  sortEntriesByUrl (dedupByContent (dedupLongest (collectTxtEntries outputBase blacklist disk)))

/-- The final txt artifact: the kept contents concatenated in order. -/
def freshTxtArtifact (outputBase : String) (blacklist : List String)
    (disk : List DiskFile) : String :=
  String.join ((freshTxtEntries outputBase blacklist disk).map (fun uc => uc.2))

/-! ### `generate_output_file`, JSONL mode

The JSON objects are read back from the `*.txt` files of `output_dir`
(files that fail `json.loads` or lack a `"url"` key are skipped; that
parsing is the JSON stdlib, so the model starts from the parsed entry
list `all_entries`). -/

structure JsonlEntry where
  url : String
  content : String
  summary : String
  keywords : List String
deriving DecidableEq

/-- The JSONL dedup loop (lines 408–419 of `activities.py`): skip
blacklisted, then keep the first entry per normalized URL (an empty URL
is never kept). -/
def dedupJsonlAux (blacklist : List String) (seen : List String) :
    List JsonlEntry → List JsonlEntry
  | [] => []
  | e :: rest =>
    let url := rstripSlash e.url
    if url ∈ blacklist then dedupJsonlAux blacklist seen rest
    else if url ≠ "" ∧ url ∉ seen then e :: dedupJsonlAux blacklist (url :: seen) rest
    else dedupJsonlAux blacklist seen rest

/-- `unique_entries` for JSONL mode, sorted by (raw) URL: the records
serialized one per line into the artifact. -/
def freshJsonlEntries (blacklist : List String) (entries : List JsonlEntry) :
    List JsonlEntry :=
  (dedupJsonlAux blacklist [] entries).insertionSort (fun a b => a.url ≤ b.url)

/-! ### `generate_output_file`, structure-preserving (update) mode -/

/-- The `url_to_summary` dict: first a pass over `input.summaries`
(later summaries overwrite earlier ones in place), then the summary
files on disk for URLs not seen yet. -/
def buildUrlToSummary (summaries : List String) (outputBase : String)
    (disk : List DiskFile) : List (String × String) :=
  let m1 := summaries.foldl (fun m s =>
    match urlPatternSearch s with
    | some u => dictSet m u (pyStrip s)
    | none => m) []
  disk.foldl (fun m fc =>
    if strEndsWith fc.1 ".txt" && fc.1 != outputBase then
      match urlPatternSearch fc.2 with
      | some u => if m.any (fun p => p.1 == u) then m else m ++ [(u, pyStrip fc.2)]
      | none => m
    else m) m1

/-- The `output_lines` written in structure-preserving mode.  Note the
blacklist is not consulted anywhere on this path. -/
def structureOutputLines (summaries : List String) (outputBase : String)
    (disk : List DiskFile) (fileStructure : List String) : List String :=
  let m := buildUrlToSummary summaries outputBase disk
  fileStructure.map (fun line =>
    match urlPatternSearch line with
    | some u =>
      match m.lookup u with
      | some s => s ++ "\n"
      | none => line
    | none => line)

/-! ### `summarize_document` (activities.py lines 225–344) -/

/-- Drop a trailing `;params` from the last path segment, as
`urllib.parse.urlparse` does. -/
def dropLastSegmentParams (cs : List Char) : List Char :=
  let segLen := (cs.reverse.takeWhile (fun c => c != '/')).length
  let headLen := cs.length - segLen
  cs.take headLen ++ (cs.drop headLen).takeWhile (fun c => c != ';')

/-- `f"{urlparse(url).netloc}{urlparse(url).path}"` for the `http(s)`
URLs this pipeline gets from the crawler (query, fragment and params do
not reach the filename); a scheme-less string is all path. -/
def urlparseNetlocPath (url : String) : String :=
  match matchSchemeAt url.data with
  | some (_, rest) =>
    let netloc := rest.takeWhile (fun c => c != '/' && c != '?' && c != '#')
    let pathq := rest.dropWhile (fun c => c != '/' && c != '?' && c != '#')
    String.mk (netloc ++ dropLastSegmentParams (pathq.takeWhile (fun c => c != '?' && c != '#')))
  | none =>
    String.mk (dropLastSegmentParams (url.data.takeWhile (fun c => c != '?' && c != '#')))

/-- Filename generation:
`f"{parsed.netloc}{parsed.path}".replace("/", "_")`, then `.txt` appended
when missing. -/
def genFilename (url : String) : String :=
  let base := String.mk ((urlparseNetlocPath url).data.map (fun c => if c == '/' then '_' else c))
  if strEndsWith base ".txt" then base else base ++ ".txt"

/-- `url.split("/")[-1]`. -/
def lastUrlSegment (url : String) : String :=
  String.mk ((url.data.reverse.takeWhile (fun c => c != '/')).reverse)

/-- Result of `json.loads(summary_text.strip())` as the code consumes
it: `decodeError` is `json.JSONDecodeError`; `nonDict` is a valid JSON
value that is not an object (its `.get` raises `AttributeError`, caught
by the activity's outer handler); `obj` carries the optional
`"summary"` and `"keywords"` fields. -/
inductive JsonLoadResult where
  | decodeError
  | nonDict
  | obj (summary : Option String) (keywords : Option (List String))
deriving DecidableEq

/-- The fields of `SummarizeDocInput` the activity reads. -/
structure SummarizeDocInput where
  url : String
  title : String
  blacklistedUrls : List String
  urlTitles : List (String × String)
  outputFormat : String
deriving DecidableEq

/-- The environment `summarize_document` runs against: the checkpoint
file `summarized_urls.json` (when it exists), the files of `output_dir`,
the staging content file, the model's response, and the JSON parser
applied to the stripped response.  `none` for `contentText` /
`llmResponse` models the corresponding read / call raising. -/
structure SummarizeEnv where
  checkpoint : Option (List (String × String))
  files : List (String × String)
  contentText : Option String
  llmResponse : Option String
  jsonLoads : String → JsonLoadResult

structure SummarizeDocOutput where
  url : String
  summary : Option String := none
  filename : Option String := none
  skipped : Bool := false
  error : Option String := none
  content : Option String := none
  keywords : Option (List String) := none
deriving DecidableEq

/-- `summarize_document`, as a pure function of its input and
environment.  The second component reports whether the language model
was invoked. -/
def summarizeDocument (input : SummarizeDocInput) (env : SummarizeEnv) :
    SummarizeDocOutput × Bool :=
  let url := input.url
  let normalized := rstripSlash url
  if normalized ∈ input.blacklistedUrls then
    ({ url := url, skipped := true }, false)
  else
    let ckptHit : Option (String × String) :=
      if input.outputFormat == "txt" then
        match env.checkpoint with
        | some summarizedUrls =>
          match summarizedUrls.lookup url with
          | some fn =>
            match env.files.lookup fn with
            | some text => some (fn, text)
            | none => none
          | none => none
        | none => none
      else none
    match ckptHit with
    | some (fn, text) =>
      ({ url := url, summary := some text, filename := some fn }, false)
    | none =>
      match env.contentText with
      | none => ({ url := url, error := some "read failure" }, false)
      | some content =>
        match env.llmResponse with
        | none => ({ url := url, error := some "model failure" }, true)
        | some summaryText =>
          let title :=
            match input.urlTitles.lookup url with
            | some t => t
            | none => if input.title ≠ "" then input.title else lastUrlSegment url
          let filename := genFilename url
          if input.outputFormat == "jsonl" then
            match env.jsonLoads (pyStrip summaryText) with
            | .decodeError =>
              ({ url := url, summary := some (pyCleanSummary summaryText),
                 filename := some filename, content := some content,
                 keywords := some [] }, true)
            | .nonDict =>
              ({ url := url, error := some "AttributeError" }, true)
            | .obj s k =>
              ({ url := url, summary := some (s.getD summaryText),
                 filename := some filename, content := some content,
                 keywords := some (k.getD []) }, true)
          else
            let formatted := "[" ++ title ++ "](" ++ url ++ "): "
              ++ pyCleanSummary summaryText ++ "\n\n"
            ({ url := url, summary := some formatted, filename := some filename }, true)

/-! ### `save_checkpoint` and the batch workflow's flushes -/

/-- `save_checkpoint`: `json.dump(input.summarized_urls, f)` over
`open(log_file, "w")` — the file is replaced by exactly the given
mapping (a direct overwrite: no temp file, no rename, no merge with the
previous contents). -/
def saveCheckpoint (_old : Option (List (String × String)))
    (summarizedUrls : List (String × String)) : Option (List (String × String)) :=
  some summarizedUrls

/-- The checkpoint file after a run's batch flushes:
`BatchProcessWorkflow.run` starts from `summarized_urls = {}`, collects
only its own batch's results and calls `save_checkpoint` with that
dict. -/
def checkpointAfterBatches (initial : Option (List (String × String)))
    (batches : List (List (String × String))) : Option (List (String × String)) :=
  batches.foldl saveCheckpoint initial

/-! ### `CrawlAndSummarizeWorkflow.run` and the continue-as-new valve -/

/-- The workflow-input fields the continue-as-new logic reads or
changes. -/
structure CrawlInput where
  urls : List String
  maxDepth : Nat
deriving DecidableEq

/-- One parent-workflow execution walks its batches in order; after a
batch ending at `batch_end` with
`batch_end < total_docs and batch_end >= 500` it stops and
continues-as-new.  Returns the documents handed to child workflows in
this execution and whether the valve fired. -/
def runBatchesUntilValve (totalDocs : Nat) :
    List (List Nat) → Nat → List Nat × Bool
  | [], _ => ([], false)
  | batch :: rest, done =>
    let batchEnd := done + batch.length
    if batchEnd < totalDocs ∧ 500 ≤ batchEnd then (batch, true)
    else
      let out := runBatchesUntilValve totalDocs rest batchEnd
      (batch ++ out.1, out.2)

/-- `CrawlAndSummarizeWorkflow.run`: discover, process batches of
`BATCH_SIZE`, and on the valve continue-as-new with the same root URLs
but `max_depth=0` (all other inputs unchanged).  `discover` is the
external crawl behind `discover_urls` (documents are represented by
numbers); `fuel` bounds the number of continue-as-new hops, which the
real workflow does not bound.  Returns the documents handed to
summarization over the whole logical run. -/
def crawlAndSummarize (discover : List String → Nat → List Nat) :
    Nat → CrawlInput → Option (List Nat)
  | 0, _ => none
  | fuel + 1, input =>
    let manifest := discover input.urls input.maxDepth
    let out := runBatchesUntilValve manifest.length (scheduleBatches manifest BATCH_SIZE) 0
    if out.2 then
      (crawlAndSummarize discover fuel { urls := input.urls, maxDepth := 0 }).map
        (fun rest => out.1 ++ rest)
    else some out.1

/-! ### `extractor.py` -/

/-- An anchor with classes `Button_button__8o_Gx SkjemadetaljerButton`
as `bs4_extractor` reads it: `get("href")` and `get_text(strip=True)`. -/
structure HtmlButton where
  href : Option String
  text : String
deriving DecidableEq

/-- The parse of the input HTML as `bs4_extractor` consumes it: the text
of `<article class="md-content__inner">` when that element is present,
the whole document's text, and the application buttons in document
order. -/
structure ParsedHtml where
  mainContentText : Option String
  fullText : String
  buttons : List HtmlButton

/-- `re.sub(r"\n\n+", "\n\n", content)`: cap every run of newlines at
two (a run of `k ≥ 2` newlines matches maximally and is replaced by
exactly two; a single newline stays). -/
def capNewlines : Nat → List Char → List Char
  | _, [] => []
  | run, '\n' :: rest =>
    if run < 2 then '\n' :: capNewlines (run + 1) rest else capNewlines run rest
  | _, c :: rest => c :: capNewlines 0 rest

/-- `re.sub(r"\n\n+", "\n\n", content).strip()`. -/
def bs4Cleanup (s : String) : String :=
  pyStrip (String.mk (capNewlines 0 s.data))

/-- `if url and title:` — the button enters the append branch. -/
def buttonQualifies (b : HtmlButton) : Bool :=
  match b.href with
  | some u => u != "" && b.text != ""
  | none => false

/-- The string appended for a qualifying button. -/
def buttonLink (b : HtmlButton) : String :=
  "\n\n[SOKNADSLINK: " ++ b.text ++ "](" ++ b.href.getD "" ++ ")\n\n"

/-- `bs4_extractor`: when a qualifying button exists but
`soup.find("article", class_="md-content__inner")` returned `None`,
`main_content.append(...)` raises `AttributeError` (modelled as
`.error`). -/
def bs4Extractor (doc : ParsedHtml) : Except String String :=
  let qs := doc.buttons.filter buttonQualifies
  match doc.mainContentText with
  | none =>
    if qs.isEmpty then .ok (bs4Cleanup doc.fullText)
    else .error "AttributeError: NoneType object has no attribute append"
  | some mainText =>
    .ok (bs4Cleanup (qs.foldl (fun t b => t ++ buttonLink b) mainText))

/-- `default_extractor`: the `markdownify` result, or `bs4_extractor` on
`RecursionError` (modelled by `mdResult = none`). -/
def defaultExtractor (mdResult : Option String) (doc : ParsedHtml) : Except String String :=
  match mdResult with
  | some r => .ok r
  | none => bs4Extractor doc

/-! ### Lemmas about the per-URL grouping dict -/

/-- All contents recorded for URL `u`, in first-seen order. -/
def groupContents (entries : List (String × String)) (u : String) : List String :=
  (entries.filter (fun e => e.1 == u)).map (fun e => e.2)

theorem lookup_cons_of_eq {α : Type} (p : String × α) (m : List (String × α)) (u : String)
    (h : u = p.1) : (p :: m).lookup u = some p.2 := by
  obtain ⟨k, b⟩ := p
  simp only at h
  rw [List.lookup_cons]
  simp [h]

theorem lookup_cons_of_ne {α : Type} (p : String × α) (m : List (String × α)) (u : String)
    (h : u ≠ p.1) : (p :: m).lookup u = m.lookup u := by
  obtain ⟨k, b⟩ := p
  simp only at h
  rw [List.lookup_cons]
  simp [beq_eq_false_iff_ne.mpr h]

theorem dictPush_cons_ne {α : Type} (p : String × List α) (m : List (String × List α))
    (k : String) (v : α) (h : p.1 ≠ k) :
    dictPush (p :: m) k v = p :: dictPush m k v := by
  have hb : (p.1 == k) = false := beq_eq_false_iff_ne.mpr h
  unfold dictPush
  rw [List.any_cons, hb, Bool.false_or, List.map_cons]
  by_cases ha : (m.any fun q => q.1 == k) = true
  · rw [if_pos ha, if_pos ha]
    congr 1
    simp [hb]
  · rw [if_neg ha, if_neg ha, List.cons_append]

theorem dictPush_cons_eq {α : Type} (p : String × List α) (m : List (String × List α))
    (k : String) (v : α) (h : p.1 = k) :
    dictPush (p :: m) k v
      = (p.1, p.2 ++ [v]) :: m.map (fun q => if q.1 == k then (q.1, q.2 ++ [v]) else q) := by
  unfold dictPush
  rw [List.any_cons, beq_iff_eq.mpr h, Bool.true_or, if_pos rfl, List.map_cons]
  congr 1
  simp [h]

theorem lookup_map_update {α : Type} (m : List (String × List α)) (k u : String) (v : α)
    (h : u ≠ k) :
    (m.map (fun q => if q.1 == k then (q.1, q.2 ++ [v]) else q)).lookup u = m.lookup u := by
  induction m with
  | nil => rfl
  | cons q m ih =>
    rw [List.map_cons]
    by_cases hq : q.1 = k
    · have hmap : (if (q.1 == k) = true then (q.1, q.2 ++ [v]) else q) = (q.1, q.2 ++ [v]) := by
        simp [hq]
      rw [hmap]
      rw [lookup_cons_of_ne (q.1, q.2 ++ [v]) _ u (fun he => h (he.trans hq))]
      rw [lookup_cons_of_ne q m u (fun he => h (he.trans hq))]
      exact ih
    · have hmap : (if (q.1 == k) = true then (q.1, q.2 ++ [v]) else q) = q := by
        simp [hq]
      rw [hmap]
      by_cases hu : u = q.1
      · rw [lookup_cons_of_eq q _ u hu, lookup_cons_of_eq q m u hu]
      · rw [lookup_cons_of_ne q _ u hu, lookup_cons_of_ne q m u hu]
        exact ih

theorem lookup_dictPush {α : Type} (m : List (String × List α)) (k : String) (v : α)
    (u : String) :
    (dictPush m k v).lookup u =
      if u = k then some ((m.lookup k).getD [] ++ [v]) else m.lookup u := by
  induction m with
  | nil =>
    by_cases h : u = k
    · rw [if_pos h]
      show List.lookup u [(k, [v])] = _
      rw [lookup_cons_of_eq (k, [v]) [] u h]
      rfl
    · rw [if_neg h]
      show List.lookup u [(k, [v])] = List.lookup u []
      rw [lookup_cons_of_ne (k, [v]) [] u h]
  | cons p m ih =>
    by_cases hpk : p.1 = k
    · rw [dictPush_cons_eq p m k v hpk]
      by_cases hup : u = p.1
      · rw [if_pos (hup.trans hpk), lookup_cons_of_eq p m k hpk.symm,
          lookup_cons_of_eq (p.1, p.2 ++ [v]) _ u hup]
        rfl
      · have huk : u ≠ k := fun he => hup (he.trans hpk.symm)
        rw [if_neg huk, lookup_cons_of_ne (p.1, p.2 ++ [v]) _ u hup,
          lookup_map_update m k u v huk, lookup_cons_of_ne p m u hup]
    · rw [dictPush_cons_ne p m k v hpk]
      by_cases hup : u = p.1
      · have huk : u ≠ k := fun he => hpk (hup ▸ he : p.1 = k)
        rw [if_neg huk, lookup_cons_of_eq p _ u hup, lookup_cons_of_eq p m u hup]
      · rw [lookup_cons_of_ne p _ u hup, ih]
        by_cases huk : u = k
        · rw [if_pos huk, if_pos huk,
            lookup_cons_of_ne p m k (fun he : k = p.1 => hpk he.symm)]
        · rw [if_neg huk, if_neg huk, lookup_cons_of_ne p m u hup]

theorem foldl_dictPush_lookup (u : String) :
    ∀ (entries : List (String × String)) (m : List (String × List String)),
    (entries.foldl (fun acc uc => dictPush acc uc.1 uc.2) m).lookup u =
      match m.lookup u with
      | some cs => some (cs ++ groupContents entries u)
      | none =>
        if groupContents entries u = [] then none else some (groupContents entries u)
  | [], m => by
    show m.lookup u = _
    cases hm : m.lookup u with
    | none => simp [groupContents, hm]
    | some cs => simp [groupContents, hm]
  | e :: rest, m => by
    rw [List.foldl_cons, foldl_dictPush_lookup u rest (dictPush m e.1 e.2), lookup_dictPush]
    by_cases he : u = e.1
    · have hgroup : groupContents (e :: rest) u = e.2 :: groupContents rest u := by
        simp [groupContents, List.filter_cons, beq_iff_eq.mpr he.symm]
      rw [if_pos he, hgroup, ← he]
      cases hm : m.lookup u with
      | some cs => simp [hm]
      | none => simp [hm]
    · have hgroup : groupContents (e :: rest) u = groupContents rest u := by
        simp [groupContents, List.filter_cons, beq_eq_false_iff_ne.mpr (fun x : e.1 = u => he x.symm)]
      rw [if_neg he, hgroup]

/-- The grouping dict, looked up: exactly the first-seen-ordered contents
of the URL. -/
theorem buildUrlToEntries_lookup (entries : List (String × String)) (u : String) :
    (buildUrlToEntries entries).lookup u =
      if groupContents entries u = [] then none else some (groupContents entries u) := by
  rw [buildUrlToEntries, foldl_dictPush_lookup u entries []]
  rfl

theorem dictPush_keys {α : Type} (m : List (String × List α)) (k : String) (v : α) :
    (dictPush m k v).map Prod.fst =
      if m.any (fun p => p.1 == k) then m.map Prod.fst else m.map Prod.fst ++ [k] := by
  unfold dictPush
  split
  · simp only [List.map_map]
    exact List.map_congr_left fun p _ => by dsimp; split <;> rfl
  · simp

theorem dictPush_keys_nodup {α : Type} (m : List (String × List α)) (k : String) (v : α)
    (h : (m.map Prod.fst).Nodup) : ((dictPush m k v).map Prod.fst).Nodup := by
  rw [dictPush_keys]
  split
  · exact h
  · rename_i hany
    rw [List.nodup_append]
    refine ⟨h, List.nodup_singleton k, ?_⟩
    intro x hx hk
    rw [List.mem_singleton] at hk
    subst hk
    apply hany
    rw [List.any_eq_true]
    rw [List.mem_map] at hx
    obtain ⟨p, hp, hpk⟩ := hx
    exact ⟨p, hp, by simp [hpk]⟩

theorem foldl_dictPush_keys_nodup :
    ∀ (entries : List (String × String)) (m : List (String × List String)),
    (m.map Prod.fst).Nodup →
    ((entries.foldl (fun acc uc => dictPush acc uc.1 uc.2) m).map Prod.fst).Nodup
  | [], _, h => h
  | e :: rest, m, h => by
    rw [List.foldl_cons]
    exact foldl_dictPush_keys_nodup rest _ (dictPush_keys_nodup m e.1 e.2 h)

theorem buildUrlToEntries_keys_nodup (entries : List (String × String)) :
    ((buildUrlToEntries entries).map Prod.fst).Nodup :=
  foldl_dictPush_keys_nodup entries [] (by simp)

theorem foldl_dictPush_keys_subset :
    ∀ (entries : List (String × String)) (m : List (String × List String)) (k : String),
    k ∈ (entries.foldl (fun acc uc => dictPush acc uc.1 uc.2) m).map Prod.fst →
    k ∈ m.map Prod.fst ∨ k ∈ entries.map Prod.fst
  | [], _, _, h => Or.inl h
  | e :: rest, m, k, h => by
    rw [List.foldl_cons] at h
    rcases foldl_dictPush_keys_subset rest _ k h with h1 | h1
    · rw [dictPush_keys] at h1
      split at h1
      · exact Or.inl h1
      · rw [List.mem_append, List.mem_singleton] at h1
        rcases h1 with h1 | h1
        · exact Or.inl h1
        · exact Or.inr (by simp [h1])
    · exact Or.inr (by simp [h1])

theorem buildUrlToEntries_keys_subset (entries : List (String × String)) (k : String)
    (h : k ∈ (buildUrlToEntries entries).map Prod.fst) : k ∈ entries.map Prod.fst := by
  rcases foldl_dictPush_keys_subset entries [] k h with h1 | h1
  · cases h1
  · exact h1

/-! ### The kept record of a URL group -/

/-- The head of the stable length-descending sort is a member of the
group, has maximal length, and is the first group member of that length
(everything before it in the group is strictly shorter). -/
theorem sortByLenDesc_spec (cs : List String) (h : cs ≠ []) :
    (sortByLenDesc cs).headD "" ∈ cs
    ∧ (∀ c ∈ cs, c.length ≤ ((sortByLenDesc cs).headD "").length)
    ∧ ∃ pre post, cs = pre ++ ((sortByLenDesc cs).headD "") :: post
        ∧ ∀ c ∈ pre, c.length < ((sortByLenDesc cs).headD "").length := by
  haveI instTot : IsTotal String (fun a b : String => b.length ≤ a.length) :=
    ⟨fun a b => Nat.le_total _ _⟩
  haveI instTrans : IsTrans String (fun a b : String => b.length ≤ a.length) :=
    ⟨fun a b c hab hbc => Nat.le_trans hbc hab⟩
  have hperm : sortByLenDesc cs ~ cs := List.perm_insertionSort _ cs
  have hsorted : (sortByLenDesc cs).Sorted (fun a b : String => b.length ≤ a.length) :=
    List.sorted_insertionSort _ cs
  have hne : sortByLenDesc cs ≠ [] := by
    intro hnil
    rw [hnil] at hperm
    exact h (List.Perm.eq_nil hperm.symm)
  obtain ⟨kept, tail, hout⟩ : ∃ a t, sortByLenDesc cs = a :: t := by
    cases hsort : sortByLenDesc cs with
    | nil => exact absurd hsort hne
    | cons a t => exact ⟨a, t, rfl⟩
  rw [hout]
  simp only [List.headD_cons]
  have hmem : kept ∈ cs := (hout ▸ hperm).subset (List.mem_cons_self kept tail)
  have hmax : ∀ c ∈ cs, c.length ≤ kept.length := by
    intro c hc
    have hc2 : c ∈ kept :: tail := (hout ▸ hperm).symm.subset hc
    rcases List.mem_cons.mp hc2 with hc3 | hc3
    · exact hc3 ▸ Nat.le_refl _
    · exact List.rel_of_sorted_cons (hout ▸ hsorted) c hc3
  refine ⟨hmem, hmax, ?_⟩
  have hFmem : ∀ x ∈ cs.filter (fun c => decide (kept.length ≤ c.length)), x.length = kept.length := by
    intro x hx
    have h1 : kept.length ≤ x.length := of_decide_eq_true (List.mem_filter.mp hx).2
    exact Nat.le_antisymm (hmax x (List.mem_filter.mp hx).1) h1
  have hFpair : (cs.filter (fun c => decide (kept.length ≤ c.length))).Pairwise
      (fun a b : String => b.length ≤ a.length) :=
    List.pairwise_of_forall_mem_list (fun a ha b hb => by
      rw [hFmem a ha, hFmem b hb])
  have hsub : cs.filter (fun c => decide (kept.length ≤ c.length)) <+ sortByLenDesc cs :=
    List.sublist_insertionSort hFpair (List.filter_sublist cs)
  have hsub2 : cs.filter (fun c => decide (kept.length ≤ c.length))
      <+ (sortByLenDesc cs).filter (fun c => decide (kept.length ≤ c.length)) := by
    have hself : (cs.filter (fun c => decide (kept.length ≤ c.length))).filter
        (fun c => decide (kept.length ≤ c.length))
        = cs.filter (fun c => decide (kept.length ≤ c.length)) :=
      List.filter_eq_self.mpr (fun a ha => (List.mem_filter.mp ha).2)
    rw [← hself]
    exact hsub.filter _
  have hlen : (cs.filter (fun c => decide (kept.length ≤ c.length))).length
      = ((sortByLenDesc cs).filter (fun c => decide (kept.length ≤ c.length))).length :=
    (hperm.filter _).length_eq.symm
  have heq := hsub2.eq_of_length hlen
  have hout2 : (sortByLenDesc cs).filter (fun c => decide (kept.length ≤ c.length))
      = kept :: tail.filter (fun c => decide (kept.length ≤ c.length)) := by
    rw [hout, List.filter_cons, if_pos (decide_eq_true (Nat.le_refl _))]
  rw [hout2] at heq
  rw [List.filter_eq_cons_iff] at heq
  obtain ⟨pre, post, hsplit, hpre, -, -⟩ := heq
  refine ⟨pre, post, hsplit, fun c hc => ?_⟩
  have hnc := hpre c hc
  have : ¬ kept.length ≤ c.length := fun hle => hnc (decide_eq_true hle)
  omega

theorem lookup_map_value {α β : Type} (f : α → β) (m : List (String × α)) (u : String) :
    (m.map (fun p => (p.1, f p.2))).lookup u = (m.lookup u).map f := by
  induction m with
  | nil => rfl
  | cons p m ih =>
    by_cases hu : u = p.1
    · rw [List.map_cons, lookup_cons_of_eq (p.1, f p.2) _ u hu, lookup_cons_of_eq p m u hu]
      rfl
    · rw [List.map_cons, lookup_cons_of_ne (p.1, f p.2) _ u hu, lookup_cons_of_ne p m u hu, ih]

/-- `dedupLongest`, looked up per URL: the head of the stable
length-descending sort of that URL's group. -/
theorem dedupLongest_lookup (entries : List (String × String)) (u : String) :
    (dedupLongest entries).lookup u
      = ((buildUrlToEntries entries).lookup u).map (fun g => (sortByLenDesc g).headD "") := by
  unfold dedupLongest
  exact lookup_map_value (fun g => (sortByLenDesc g).headD "") (buildUrlToEntries entries) u

/-! ### Content-level dedup lemmas -/

theorem dedupByContentAux_sublist :
    ∀ (l : List (String × String)) (seen : List String), dedupByContentAux seen l <+ l
  | [], _ => List.nil_sublist []
  | uc :: rest, seen => by
    show dedupByContentAux seen (uc :: rest) <+ uc :: rest
    rw [dedupByContentAux]
    split
    · exact (dedupByContentAux_sublist rest seen).cons uc
    · exact (dedupByContentAux_sublist rest _).cons₂ uc

theorem dedupByContentAux_nodup :
    ∀ (l : List (String × String)) (seen : List String),
    ((dedupByContentAux seen l).map Prod.snd).Nodup
    ∧ ∀ c ∈ (dedupByContentAux seen l).map Prod.snd, c ∉ seen
  | [], _ => ⟨List.nodup_nil, by simp [dedupByContentAux]⟩
  | uc :: rest, seen => by
    rw [dedupByContentAux]
    split
    · exact dedupByContentAux_nodup rest seen
    · rename_i hnot
      obtain ⟨ih1, ih2⟩ := dedupByContentAux_nodup rest (uc.2 :: seen)
      rw [List.map_cons, List.nodup_cons]
      refine ⟨⟨fun hmem => (ih2 uc.2 hmem) (List.mem_cons_self _ _), ih1⟩, ?_⟩
      intro c hc
      rcases List.mem_cons.mp hc with hc1 | hc1
      · exact hc1 ▸ hnot
      · exact fun hs => (ih2 c hc1) (List.mem_cons_of_mem _ hs)

theorem dedupByContentAux_covers :
    ∀ (l : List (String × String)) (seen : List String) (p : String × String),
    p ∈ l → p.2 ∈ seen ∨ p.2 ∈ (dedupByContentAux seen l).map Prod.snd
  | [], _, _, h => absurd h (List.not_mem_nil _)
  | uc :: rest, seen, p, h => by
    rw [dedupByContentAux]
    rcases List.mem_cons.mp h with h1 | h1
    · split
      · rename_i hin
        exact Or.inl (h1 ▸ hin)
      · exact Or.inr (by rw [h1, List.map_cons]; exact List.mem_cons_self _ _)
    · split
      · exact dedupByContentAux_covers rest seen p h1
      · rcases dedupByContentAux_covers rest (uc.2 :: seen) p h1 with h2 | h2
        · rcases List.mem_cons.mp h2 with h3 | h3
          · exact Or.inr (by rw [List.map_cons, h3]; exact List.mem_cons_self _ _)
          · exact Or.inl h3
        · exact Or.inr (by rw [List.map_cons]; exact List.mem_cons_of_mem _ h2)

/-! ### JSONL dedup lemmas -/

theorem dedupJsonlAux_spec :
    ∀ (l : List JsonlEntry) (bl seen : List String) (e : JsonlEntry),
    e ∈ dedupJsonlAux bl seen l →
    rstripSlash e.url ∉ bl ∧ rstripSlash e.url ∉ seen ∧ rstripSlash e.url ≠ ""
    ∧ ∃ pre post, l = pre ++ e :: post
        ∧ ∀ e2 ∈ pre, rstripSlash e2.url ≠ rstripSlash e.url
  | [], _, _, _, h => absurd h (List.not_mem_nil _)
  | e0 :: rest, bl, seen, e, h => by
    rw [dedupJsonlAux] at h
    split at h
    · rename_i hbl0
      obtain ⟨h1, h2, h3, pre, post, hsplit, hpre⟩ := dedupJsonlAux_spec rest bl seen e h
      exact ⟨h1, h2, h3, e0 :: pre, post, by rw [hsplit]; rfl,
        fun e2 he2 => by
          rcases List.mem_cons.mp he2 with he3 | he3
          · exact he3 ▸ fun hx => h1 (hx ▸ hbl0)
          · exact hpre e2 he3⟩
    · split at h
      · rename_i hbl0 hkeep
        rcases List.mem_cons.mp h with h1 | h1
        · subst h1
          exact ⟨hbl0, hkeep.2, hkeep.1, [], rest, rfl, by simp⟩
        · obtain ⟨h1, h2, h3, pre, post, hsplit, hpre⟩ :=
            dedupJsonlAux_spec rest bl (rstripSlash e0.url :: seen) e h1
          have hne0 : rstripSlash e0.url ≠ rstripSlash e.url :=
            fun hx => h2 (hx ▸ List.mem_cons_self _ _)
          exact ⟨h1, fun hs => h2 (List.mem_cons_of_mem _ hs), h3, e0 :: pre, post,
            by rw [hsplit]; rfl,
            fun e2 he2 => by
              rcases List.mem_cons.mp he2 with he3 | he3
              · exact he3 ▸ hne0
              · exact hpre e2 he3⟩
      · rename_i hbl0 hdrop
        obtain ⟨h1, h2, h3, pre, post, hsplit, hpre⟩ := dedupJsonlAux_spec rest bl seen e h
        have hne0 : rstripSlash e0.url ≠ rstripSlash e.url := by
          intro hx
          rcases Decidable.not_and_iff_or_not.mp hdrop with hd | hd
          · exact h3 (hx ▸ Decidable.not_not.mp hd)
          · exact h2 (hx ▸ Decidable.not_not.mp hd)
        exact ⟨h1, h2, h3, e0 :: pre, post, by rw [hsplit]; rfl,
          fun e2 he2 => by
            rcases List.mem_cons.mp he2 with he3 | he3
            · exact he3 ▸ hne0
            · exact hpre e2 he3⟩

theorem dedupJsonlAux_nodup :
    ∀ (l : List JsonlEntry) (bl seen : List String),
    ((dedupJsonlAux bl seen l).map (fun e => rstripSlash e.url)).Nodup
  | [], _, _ => List.nodup_nil
  | e0 :: rest, bl, seen => by
    rw [dedupJsonlAux]
    split
    · exact dedupJsonlAux_nodup rest bl seen
    · split
      · rw [List.map_cons, List.nodup_cons]
        refine ⟨?_, dedupJsonlAux_nodup rest bl (rstripSlash e0.url :: seen)⟩
        intro hmem
        rw [List.mem_map] at hmem
        obtain ⟨e, he, heq⟩ := hmem
        have h2 := (dedupJsonlAux_spec rest bl (rstripSlash e0.url :: seen) e he).2.1
        exact h2 (heq ▸ List.mem_cons_self _ _)
      · exact dedupJsonlAux_nodup rest bl seen

/-! ### Blacklist lemmas for the fresh aggregation modes -/

theorem collectTxtEntries_not_blacklisted (ob : String) (bl : List String)
    (disk : List DiskFile) : ∀ p ∈ collectTxtEntries ob bl disk, p.1 ∉ bl := by
  intro p hp
  unfold collectTxtEntries at hp
  rw [List.mem_filterMap] at hp
  obtain ⟨fc, _, hfc⟩ := hp
  split at hfc
  · dsimp only at hfc
    split at hfc
    · exact absurd hfc (by simp)
    · rename_i hnb
      obtain rfl : _ = p := Option.some_injective _ hfc
      exact hnb
  · exact absurd hfc (by simp)

theorem dedupLongest_keys (entries : List (String × String)) :
    (dedupLongest entries).map Prod.fst = (buildUrlToEntries entries).map Prod.fst := by
  unfold dedupLongest
  rw [List.map_map]
  rfl

theorem freshTxtEntries_mem_url (ob : String) (bl : List String) (disk : List DiskFile)
    (p : String × String) (hp : p ∈ freshTxtEntries ob bl disk) :
    p.1 ∈ (collectTxtEntries ob bl disk).map Prod.fst := by
  unfold freshTxtEntries sortEntriesByUrl at hp
  rw [List.mem_insertionSort] at hp
  have hp2 : p ∈ dedupLongest (collectTxtEntries ob bl disk) :=
    (dedupByContentAux_sublist _ []).subset hp
  have hk : p.1 ∈ (dedupLongest (collectTxtEntries ob bl disk)).map Prod.fst :=
    List.mem_map_of_mem Prod.fst hp2
  rw [dedupLongest_keys] at hk
  exact buildUrlToEntries_keys_subset _ _ hk

theorem freshTxtEntries_not_blacklisted (ob : String) (bl : List String)
    (disk : List DiskFile) : ∀ p ∈ freshTxtEntries ob bl disk, p.1 ∉ bl := by
  intro p hp
  have hk := freshTxtEntries_mem_url ob bl disk p hp
  rw [List.mem_map] at hk
  obtain ⟨q, hq, hq1⟩ := hk
  exact hq1 ▸ collectTxtEntries_not_blacklisted ob bl disk q hq

theorem freshTxtEntries_urls_nodup (ob : String) (bl : List String) (disk : List DiskFile) :
    ((freshTxtEntries ob bl disk).map Prod.fst).Nodup := by
  have h2 : ((dedupLongest (collectTxtEntries ob bl disk)).map Prod.fst).Nodup := by
    rw [dedupLongest_keys]
    exact buildUrlToEntries_keys_nodup _
  have h3 := dedupByContentAux_sublist (dedupLongest (collectTxtEntries ob bl disk)) []
  have h4 : ((dedupByContent (dedupLongest (collectTxtEntries ob bl disk))).map Prod.fst).Nodup :=
    List.Nodup.sublist (h3.map Prod.fst) h2
  have h5 := List.perm_insertionSort (fun a b : String × String => a.1 ≤ b.1)
    (dedupByContent (dedupLongest (collectTxtEntries ob bl disk)))
  exact ((h5.map Prod.fst).nodup_iff).mpr h4

/-! ### C1 — checkpoint short-circuit -/

/-- C1 (amended): for a URL with a checkpoint entry whose referenced
result file exists, `summarize_document` returns the stored record
without invoking the model — but only in txt output format (the code
gates the checkpoint lookup on `input.output_format == "txt"`). -/
theorem summarize_checkpoint_txt_only (input : SummarizeDocInput) (env : SummarizeEnv)
    (m : List (String × String)) (fn text : String)
    (hfmt : input.outputFormat = "txt")
    (hbl : rstripSlash input.url ∉ input.blacklistedUrls)
    (hck : env.checkpoint = some m)
    (hlk : m.lookup input.url = some fn)
    (hfile : env.files.lookup fn = some text) :
    summarizeDocument input env =
      ({ url := input.url, summary := some text, filename := some fn }, false) := by
  simp [summarizeDocument, hfmt, hbl, hck, hlk, hfile]

/-- C1 witness: a concrete txt-format short-circuit. -/
theorem summarize_checkpoint_txt_only_witness :
    summarizeDocument
        { url := "https://a/b", title := "T", blacklistedUrls := [], urlTitles := [],
          outputFormat := "txt" }
        { checkpoint := some [("https://a/b", "a_b.txt")],
          files := [("a_b.txt", "[T](https://a/b): cached\n\n")],
          contentText := some "content", llmResponse := some "resp",
          jsonLoads := fun _ => .decodeError } =
      ({ url := "https://a/b", summary := some "[T](https://a/b): cached\n\n",
         filename := some "a_b.txt" }, false) :=
  summarize_checkpoint_txt_only _ _ [("https://a/b", "a_b.txt")] "a_b.txt"
    "[T](https://a/b): cached\n\n" (by decide) (by decide) rfl (by decide) (by decide)

/-- C1 counterexample: in jsonl format the same checkpoint state is
ignored — the model is invoked again (second component `true`), so the
claim's "in any output format" fails. -/
theorem summarize_checkpoint_jsonl_reinvokes :
    (summarizeDocument
        { url := "https://a/b", title := "T", blacklistedUrls := [], urlTitles := [],
          outputFormat := "jsonl" }
        { checkpoint := some [("https://a/b", "a_b.txt")],
          files := [("a_b.txt", "[T](https://a/b): cached\n\n")],
          contentText := some "content", llmResponse := some "resp",
          jsonLoads := fun _ => .decodeError }).2 = true
    ∧ List.lookup "https://a/b" [("https://a/b", "a_b.txt")] = some "a_b.txt"
    ∧ List.lookup "a_b.txt" [("a_b.txt", "[T](https://a/b): cached\n\n")]
        = some "[T](https://a/b): cached\n\n" := by
  refine ⟨?_, by decide, by decide⟩
  decide

/-! ### C2 — checkpoint file contents across batch flushes -/

/-- C2 (amended): each batch-level flush overwrites the single
checkpoint file with exactly the flushing batch's URL → file mapping
(a direct `open(..., "w")` write, not a write-temp-then-rename);
entries recorded by earlier batches are not retained. -/
theorem checkpoint_flush_keeps_last_batch_only
    (initial : Option (List (String × String)))
    (batches : List (List (String × String))) (hb : batches ≠ []) :
    checkpointAfterBatches initial batches = some (batches.getLast hb) := by
  induction batches generalizing initial with
  | nil => exact absurd rfl hb
  | cons b rest ih =>
    cases rest with
    | nil => rfl
    | cons b2 rest2 =>
      rw [checkpointAfterBatches, List.foldl_cons,
        List.getLast_cons (by simp : (b2 :: rest2) ≠ [])]
      exact ih (saveCheckpoint initial b) (by simp)

/-- C2 witness: two one-entry batches; the file ends as the second
batch's mapping. -/
theorem checkpoint_flush_keeps_last_batch_only_witness :
    checkpointAfterBatches none [[("u1", "f1")], [("u2", "f2")]] = some [("u2", "f2")] :=
  checkpoint_flush_keeps_last_batch_only none [[("u1", "f1")], [("u2", "f2")]] (by decide)

/-- C2 counterexample: after the second batch's flush, the entry the
first batch recorded (`u1 → f1`) is gone from the checkpoint file, so
the claimed "entries recorded by earlier batches' flushes are still
present" fails. -/
theorem checkpoint_flush_drops_earlier_entries :
    checkpointAfterBatches none [[("u1", "f1")], [("u2", "f2")]] = some [("u2", "f2")]
    ∧ List.lookup "u1" [("u2", "f2")] = none
    ∧ List.lookup "u1" [("u1", "f1")] = some "f1" := by
  refine ⟨rfl, by decide, by decide⟩

/-! ### C3 — continue-as-new safety valve -/

/-- A crawl with 501 documents at depth 5 but only the root page at
depth 0 (documents numbered; `0` is the root page). -/
def valveDiscover : List String → Nat → List Nat :=
  fun _ depth => if depth = 0 then [0] else List.range 501

set_option maxRecDepth 100000 in
/-- C3, evaluated at the failing input: the valve fires after 500 of
501 documents, the workflow continues-as-new with `max_depth=0` and the
same root URLs, the re-discovery returns only the root page, and
document `500` of the original manifest is never handed to
summarization. -/
theorem continue_as_new_drops_remaining_manifest :
    crawlAndSummarize valveDiscover 3 { urls := ["https://root"], maxDepth := 5 }
        = some (List.range 500 ++ [0])
    ∧ (valveDiscover ["https://root"] 5).length = 501
    ∧ 500 ∈ valveDiscover ["https://root"] 5
    ∧ 500 ∉ List.range 500 ++ [0] := by
  refine ⟨by decide, by decide, by decide, ?_⟩
  simp

/-! ### C7 — structured-mode JSON parse fallback -/

/-- C7 (amended): when the structured-mode response fails to parse as
JSON, the document is not aborted: the record's summary is the
whitespace-normalised response text (double newlines, then newlines,
replaced by spaces; then stripped) and its keyword list is empty.  For
the response `"not json"` the normalisation is the identity. -/
theorem jsonl_parse_fallback_normalizes (input : SummarizeDocInput) (env : SummarizeEnv)
    (c t : String)
    (hfmt : input.outputFormat = "jsonl")
    (hbl : rstripSlash input.url ∉ input.blacklistedUrls)
    (hct : env.contentText = some c)
    (hresp : env.llmResponse = some t)
    (hjson : env.jsonLoads (pyStrip t) = .decodeError) :
    (summarizeDocument input env).1.summary = some (pyCleanSummary t)
    ∧ (summarizeDocument input env).1.keywords = some []
    ∧ (summarizeDocument input env).1.error = none
    ∧ (summarizeDocument input env).2 = true := by
  simp [summarizeDocument, hfmt, hbl, hct, hresp, hjson]

/-- C7 witness: the spec's instance — response `"not json"` yields
summary `"not json"` and keywords `[]`. -/
theorem jsonl_parse_fallback_normalizes_witness :
    (summarizeDocument
        { url := "https://a/b", title := "T", blacklistedUrls := [], urlTitles := [],
          outputFormat := "jsonl" }
        { checkpoint := none, files := [], contentText := some "c",
          llmResponse := some "not json", jsonLoads := fun _ => .decodeError }).1.summary
      = some "not json"
    ∧ (summarizeDocument
        { url := "https://a/b", title := "T", blacklistedUrls := [], urlTitles := [],
          outputFormat := "jsonl" }
        { checkpoint := none, files := [], contentText := some "c",
          llmResponse := some "not json", jsonLoads := fun _ => .decodeError }).1.keywords
      = some [] := by
  have h := jsonl_parse_fallback_normalizes
    { url := "https://a/b", title := "T", blacklistedUrls := [], urlTitles := [],
      outputFormat := "jsonl" }
    { checkpoint := none, files := [], contentText := some "c",
      llmResponse := some "not json", jsonLoads := fun _ => .decodeError }
    "c" "not json" rfl (by decide) rfl rfl rfl
  exact ⟨h.1.trans (by decide), h.2.1⟩

/-- C7 counterexample: for the non-JSON response `"a\nb"` the stored
summary is the normalised `"a b"`, not the raw response text, so the
claim's "has the raw response text as its summary" fails as stated. -/
theorem jsonl_parse_fallback_not_raw :
    (summarizeDocument
        { url := "https://a/b", title := "T", blacklistedUrls := [], urlTitles := [],
          outputFormat := "jsonl" }
        { checkpoint := none, files := [], contentText := some "c",
          llmResponse := some "a\nb", jsonLoads := fun _ => .decodeError }).1.summary
      = some "a b"
    ∧ "a b" ≠ "a\nb" := by
  refine ⟨by decide, by decide⟩

/-! ### C9 — `bs4_extractor` is not total -/

/-- C9: on HTML with a qualifying application button (an `href` and
non-empty text) but no `<article class="md-content__inner">`,
`bs4_extractor` raises (`main_content` is `None` when appended to), and
`default_extractor`'s `RecursionError` fallback therefore fails on the
same input. -/
theorem bs4_crash_on_button_without_article (doc : ParsedHtml) (b : HtmlButton)
    (hmain : doc.mainContentText = none) (hb : b ∈ doc.buttons)
    (hq : buttonQualifies b = true) :
    bs4Extractor doc = .error "AttributeError: NoneType object has no attribute append"
    ∧ defaultExtractor none doc
        = .error "AttributeError: NoneType object has no attribute append" := by
  have hne : (doc.buttons.filter buttonQualifies).isEmpty = false := by
    have hmem : b ∈ doc.buttons.filter buttonQualifies := List.mem_filter.mpr ⟨hb, hq⟩
    have hnil : doc.buttons.filter buttonQualifies ≠ [] := List.ne_nil_of_mem hmem
    simpa [List.isEmpty_iff] using hnil
  have h1 : bs4Extractor doc
      = .error "AttributeError: NoneType object has no attribute append" := by
    simp [bs4Extractor, hmain, hne]
  exact ⟨h1, h1⟩

/-- C9 witness: the concrete shape — one qualifying button, no
article element. -/
theorem bs4_crash_on_button_without_article_witness :
    bs4Extractor
        { mainContentText := none, fullText := "body",
          buttons := [{ href := some "https://form", text := "Apply" }] }
      = .error "AttributeError: NoneType object has no attribute append"
    ∧ defaultExtractor none
        { mainContentText := none, fullText := "body",
          buttons := [{ href := some "https://form", text := "Apply" }] }
      = .error "AttributeError: NoneType object has no attribute append" :=
  bs4_crash_on_button_without_article _ { href := some "https://form", text := "Apply" }
    rfl (by decide) (by decide)

/-! ### C4 — fresh-mode dedup -/

/-- A concrete short JSONL record (first-seen for its URL). -/
def jShort : JsonlEntry :=
  { url := "https://u", content := "c", summary := "short", keywords := [] }

/-- A concrete longer JSONL record for the same URL. -/
def jLong : JsonlEntry :=
  { url := "https://u", content := "c", summary := "muchlongerone", keywords := [] }

/-- C4 (amended): fresh-mode aggregation keeps at most one entry per
normalized URL in both formats.  In txt mode the group of records for a
URL is collected in first-seen order and the kept record is the head of
the stable length-descending sort: a member of maximal length, first
among the group members of that length.  In JSONL mode the first-seen
record for a URL is kept regardless of length (the original claim's
"longest wins" fails for JSONL — see the counterexample). -/
theorem fresh_dedup_txt_longest_jsonl_first (ob : String) (bl : List String)
    (disk : List DiskFile) (entries : List (String × String)) (u : String)
    (cs : List String) (jentries : List JsonlEntry) (e : JsonlEntry) :
    ((freshTxtEntries ob bl disk).map Prod.fst).Nodup
    ∧ ((buildUrlToEntries entries).lookup u = some cs → cs = groupContents entries u)
    ∧ (cs ≠ [] →
        (sortByLenDesc cs).headD "" ∈ cs
        ∧ (∀ c ∈ cs, c.length ≤ ((sortByLenDesc cs).headD "").length)
        ∧ ∃ pre post, cs = pre ++ ((sortByLenDesc cs).headD "") :: post
            ∧ ∀ c ∈ pre, c.length < ((sortByLenDesc cs).headD "").length)
    ∧ (dedupLongest entries).lookup u
        = ((buildUrlToEntries entries).lookup u).map (fun g => (sortByLenDesc g).headD "")
    ∧ ((freshJsonlEntries bl jentries).map (fun x => rstripSlash x.url)).Nodup
    ∧ (e ∈ freshJsonlEntries bl jentries →
        ∃ pre post, jentries = pre ++ e :: post
          ∧ ∀ e2 ∈ pre, rstripSlash e2.url ≠ rstripSlash e.url) := by
  refine ⟨freshTxtEntries_urls_nodup ob bl disk, ?_, sortByLenDesc_spec cs,
    dedupLongest_lookup entries u, ?_, ?_⟩
  · intro hl
    rw [buildUrlToEntries_lookup] at hl
    split at hl
    · cases hl
    · exact (Option.some_injective _ hl).symm
  · have h := dedupJsonlAux_nodup jentries bl []
    have hperm := List.perm_insertionSort (fun a b : JsonlEntry => a.url ≤ b.url)
      (dedupJsonlAux bl [] jentries)
    exact ((hperm.map _).nodup_iff).mpr h
  · intro he
    rw [freshJsonlEntries, List.mem_insertionSort] at he
    exact (dedupJsonlAux_spec jentries bl [] e he).2.2.2

/-- C4 witness: the hypotheses discharged at concrete inputs. -/
theorem fresh_dedup_txt_longest_jsonl_first_witness :
    ((["ab", "xyz"] : List String) = groupContents [("u", "ab"), ("u", "xyz"), ("v", "q")] "u")
    ∧ ((sortByLenDesc ["ab", "xyz"]).headD "" ∈ (["ab", "xyz"] : List String))
    ∧ (∃ pre post, (["ab", "xyz"] : List String)
          = pre ++ ((sortByLenDesc ["ab", "xyz"]).headD "") :: post
          ∧ ∀ c ∈ pre, c.length < ((sortByLenDesc ["ab", "xyz"]).headD "").length)
    ∧ (∃ pre post, [jShort, jLong] = pre ++ jShort :: post
        ∧ ∀ e2 ∈ pre, rstripSlash e2.url ≠ rstripSlash jShort.url) := by
  have h := fresh_dedup_txt_longest_jsonl_first "llms.txt" [] []
    [("u", "ab"), ("u", "xyz"), ("v", "q")] "u" ["ab", "xyz"] [jShort, jLong] jShort
  exact ⟨h.2.1 (by decide), (h.2.2.1 (by decide)).1, (h.2.2.1 (by decide)).2.2,
    h.2.2.2.2.2 (by decide)⟩

/-- C4 counterexample: two JSONL records for the same URL, the later one
strictly longer — the dedup keeps the first-seen record, not the
longest, so the claim fails for the JSONL format. -/
theorem jsonl_dedup_keeps_first_not_longest :
    freshJsonlEntries [] [jShort, jLong] = [jShort]
    ∧ jShort.summary.length < jLong.summary.length
    ∧ jShort.url = jLong.url := by
  refine ⟨by decide, by decide, by decide⟩

/-! ### C5 — blacklist enforcement -/

/-- C5 counterexample: the structure-preserving update mode never
consults the blacklist — a structure line referencing a blacklisted URL
is emitted into the final artifact unchanged. -/
theorem blacklist_ignored_in_structure_mode :
    structureOutputLines [] "llms.txt" [] ["[t](https://b.com/x): old\n"]
      = ["[t](https://b.com/x): old\n"]
    ∧ urlPatternSearch "[t](https://b.com/x): old\n" = some "https://b.com/x"
    ∧ "https://b.com/x" ∈ ["https://b.com/x"] := by
  refine ⟨by decide, by decide, by decide⟩

/-- C5 (amended): a blacklisted URL is never summarized (skipped before
any model call) and never appears as an entry URL in the fresh txt or
fresh JSONL artifact; the structure-preserving update mode, however,
applies no blacklist filtering at all (see the counterexample). -/
theorem blacklist_enforced_in_fresh_modes (input : SummarizeDocInput) (env : SummarizeEnv)
    (ob u : String) (bl : List String) (disk : List DiskFile)
    (jentries : List JsonlEntry) (hu : u ∈ bl) :
    (rstripSlash input.url ∈ input.blacklistedUrls →
      summarizeDocument input env = ({ url := input.url, skipped := true }, false))
    ∧ (∀ p ∈ freshTxtEntries ob bl disk, p.1 ≠ u)
    ∧ (∀ e ∈ freshJsonlEntries bl jentries, rstripSlash e.url ≠ u) := by
  refine ⟨?_, ?_, ?_⟩
  · intro hbl
    simp [summarizeDocument, hbl]
  · intro p hp hpu
    exact freshTxtEntries_not_blacklisted ob bl disk p hp (hpu ▸ hu)
  · intro e he heu
    rw [freshJsonlEntries, List.mem_insertionSort] at he
    exact (dedupJsonlAux_spec jentries bl [] e he).1 (heu ▸ hu)

/-- C5 witness: a concrete blacklisted URL is skipped by summarization
and filtered from both fresh artifacts. -/
theorem blacklist_enforced_in_fresh_modes_witness :
    ("https://b.com/x" ∈ ["https://b.com/x"])
    ∧ summarizeDocument
        { url := "https://b.com/x/", title := "T", blacklistedUrls := ["https://b.com/x"],
          urlTitles := [], outputFormat := "txt" }
        { checkpoint := none, files := [], contentText := some "c",
          llmResponse := some "r", jsonLoads := fun _ => .decodeError }
      = ({ url := "https://b.com/x/", skipped := true }, false)
    ∧ (∀ p ∈ freshTxtEntries "llms.txt" ["https://b.com/x"]
          [("f.txt", "[t](https://b.com/x): s\n\n")], p.1 ≠ "https://b.com/x")
    ∧ (∀ e ∈ freshJsonlEntries ["https://b.com/x"]
          [{ url := "https://b.com/x", content := "c", summary := "s", keywords := [] }],
        rstripSlash e.url ≠ "https://b.com/x") := by
  have h := blacklist_enforced_in_fresh_modes
    { url := "https://b.com/x/", title := "T", blacklistedUrls := ["https://b.com/x"],
      urlTitles := [], outputFormat := "txt" }
    { checkpoint := none, files := [], contentText := some "c",
      llmResponse := some "r", jsonLoads := fun _ => .decodeError }
    "llms.txt" "https://b.com/x" ["https://b.com/x"]
    [("f.txt", "[t](https://b.com/x): s\n\n")]
    [{ url := "https://b.com/x", content := "c", summary := "s", keywords := [] }]
    (by decide)
  exact ⟨by decide, h.1 (by decide), h.2.1, h.2.2⟩

/-! ### C8 — structure-preserving update mode -/

/-- C8: the update-mode output has exactly one line per structure line
(records not matched by any line are never appended); a line with no URL
reference, or whose URL has no record in the freshly built
`url_to_summary` map, passes through byte-identical at its original
position; a line whose URL has a record is replaced by that record (with
the terminating newline re-attached). -/
theorem structure_mode_replaces_only_matched_lines (summaries : List String)
    (ob : String) (disk : List DiskFile) (fileStructure : List String) :
    (structureOutputLines summaries ob disk fileStructure).length = fileStructure.length
    ∧ ∀ (i : Nat) (line : String), fileStructure[i]? = some line →
        ((urlPatternSearch line = none →
            (structureOutputLines summaries ob disk fileStructure)[i]? = some line)
        ∧ (∀ u, urlPatternSearch line = some u →
            (buildUrlToSummary summaries ob disk).lookup u = none →
            (structureOutputLines summaries ob disk fileStructure)[i]? = some line)
        ∧ (∀ u s, urlPatternSearch line = some u →
            (buildUrlToSummary summaries ob disk).lookup u = some s →
            (structureOutputLines summaries ob disk fileStructure)[i]? = some (s ++ "\n"))) := by
  constructor
  · exact List.length_map _ _
  · intro i line hline
    have hmap : ∀ (j : Nat), (structureOutputLines summaries ob disk fileStructure)[j]?
        = (fileStructure[j]?).map (fun ln =>
            match urlPatternSearch ln with
            | some u =>
              match (buildUrlToSummary summaries ob disk).lookup u with
              | some s => s ++ "\n"
              | none => ln
            | none => ln) := by
      intro j
      exact List.getElem?_map _ _ _

    refine ⟨?_, ?_, ?_⟩
    · intro hnone
      rw [hmap i, hline]
      simp [hnone]
    · intro u hsome hnone
      rw [hmap i, hline]
      simp [hsome, hnone]
    · intro u s hsome hsome2
      rw [hmap i, hline]
      simp [hsome, hsome2]

/-- C8 witness: the spec scenario — two lines referencing `u1`, `u2`,
a fresh record only for `u1`, plus a line with no URL: the `u1` line is
replaced, the others pass through byte-identical; nothing is appended. -/
theorem structure_mode_replaces_only_matched_lines_witness :
    (structureOutputLines ["[a](https://u1): new\n\n"] "llms.txt" []
        ["[a](https://u1): old\n", "[b](https://u2): old2\n", "plain\n"]).length = 3
    ∧ (structureOutputLines ["[a](https://u1): new\n\n"] "llms.txt" []
        ["[a](https://u1): old\n", "[b](https://u2): old2\n", "plain\n"])[0]?
      = some "[a](https://u1): new\n"
    ∧ (structureOutputLines ["[a](https://u1): new\n\n"] "llms.txt" []
        ["[a](https://u1): old\n", "[b](https://u2): old2\n", "plain\n"])[1]?
      = some "[b](https://u2): old2\n"
    ∧ (structureOutputLines ["[a](https://u1): new\n\n"] "llms.txt" []
        ["[a](https://u1): old\n", "[b](https://u2): old2\n", "plain\n"])[2]?
      = some "plain\n" := by
  have h := structure_mode_replaces_only_matched_lines ["[a](https://u1): new\n\n"] "llms.txt"
    [] ["[a](https://u1): old\n", "[b](https://u2): old2\n", "plain\n"]
  refine ⟨h.1.trans (by decide), ?_, ?_, ?_⟩
  · exact (((h.2 0 "[a](https://u1): old\n" (by decide)).2.2 "https://u1"
      "[a](https://u1): new" (by decide) (by decide)).trans (by decide))
  · exact ((h.2 1 "[b](https://u2): old2\n" (by decide)).2.1 "https://u2"
      (by decide) (by decide))
  · exact ((h.2 2 "plain\n" (by decide)).1 (by decide))

/-! ### C10 — content-level dedup across URLs (fresh txt mode) -/

/-- C10: after the per-URL dedup, fresh txt aggregation drops every
entry whose full record text equals that of an earlier entry even when
the URLs differ: the content-dedup stage returns a sublist of its input
whose record texts are pairwise distinct yet cover every input text;
concretely, two files with distinct URLs (their filenames, as neither
content matches the URL pattern) and byte-identical records yield a
single artifact entry. -/
theorem content_dedup_across_urls (l : List (String × String)) (p : String × String) :
    (dedupByContent l <+ l
    ∧ ((dedupByContent l).map Prod.snd).Nodup
    ∧ (p ∈ l → p.2 ∈ (dedupByContent l).map Prod.snd))
    ∧ freshTxtEntries "llms.txt" [] [("a.txt", "same"), ("b.txt", "same")]
        = [("a.txt", "same")]
    ∧ freshTxtArtifact "llms.txt" [] [("a.txt", "same"), ("b.txt", "same")] = "same" := by
  refine ⟨⟨dedupByContentAux_sublist l [], (dedupByContentAux_nodup l []).1, ?_⟩,
    by decide, by decide⟩
  intro hp
  rcases dedupByContentAux_covers l [] p hp with h | h
  · cases h
  · exact h

/-- C10 witness: the membership hypothesis discharged concretely. -/
theorem content_dedup_across_urls_witness :
    ("y" ∈ (dedupByContent [("u1", "x"), ("u2", "y"), ("u3", "x")]).map Prod.snd)
    ∧ freshTxtArtifact "llms.txt" [] [("a.txt", "same"), ("b.txt", "same")] = "same" := by
  have h := content_dedup_across_urls [("u1", "x"), ("u2", "y"), ("u3", "x")] ("u2", "y")
  exact ⟨h.1.2.2 (by decide), h.2.2⟩

end LlmsTxt
